import Mathlib

/-!
Verification of the atomic-command executor of the paleomix/pypeline
repository (`pypeline/atomiccmd.py`) and of the zonkey sample validator
(`paleomix/tools/zonkey/config.py`), against its natural-language
specification.

Modelling conventions:
* Filesystem paths are modelled as lists of components (`FsPath`); an
  absolute path starts with the component "" (mirroring the result of
  splitting a string such as "/a/b" on "/").  `os.path.basename` is the
  last component, `os.path.join root name` (for a slash-free `name`) is
  `root ++ [name]`, and `os.path.dirname` is `List.dropLast`.
* Python dictionaries are modelled as association lists with
  assignment semantics (`dictSet` replaces an existing binding in place,
  otherwise appends), and `dict.get` as `lookupSlot`.
* Exceptions are modelled with `Except String`; the message is the
  formatted message of the raised exception (with `%s`/`%r`
  interpolation rendered by plain concatenation).
* The filesystem is a map from paths to abstract file contents (`Nat`)
  together with an inode assignment used by `os.path.samefile`.
-/

/-- A filesystem path, as its list of components. -/
abbrev FsPath := List String

/-- The value bound to a slot keyword of an `AtomicCmd`: a string path, the
`subprocess.PIPE` sentinel, another `AtomicCmd` (for `IN_STDIN`), a callable
(for `CHECK_` slots) or `None`. -/
inductive SlotValue where
  | path (p : FsPath)
  | pipe
  | cmd
  | callable
  | none
deriving DecidableEq, Repr

/-- A slot map (`kwargs` / `self._files`): an association list from slot
keyword to slot value. -/
abbrev SlotMap := List (String × SlotValue)

/-- Models `str.startswith` (structurally, so that the kernel can
evaluate it on literals). -/
def strStarts (s pre : String) : Bool :=
  pre.data.isPrefixOf s.data

/-- Models `str.lower` for ASCII keywords. -/
def strLower (s : String) : String :=
  String.mk (s.data.map Char.toLower)

/-- Models `str.rstrip("_")`: removes all trailing underscores. -/
def rstripUnderscores (s : String) : String :=
  String.mk ((s.data.reverse.dropWhile (fun c => c = '_')).reverse)

/-- Models `os.path.basename` on a raw string (used only for `argv[0]` when
synthesising pipe filenames): the part after the last slash. -/
def basenameStr (s : String) : String :=
  String.mk ((s.data.reverse.takeWhile (fun c => c ≠ '/')).reverse)

/-- Models `os.path.basename` on a component path: the last component
("" for the empty path, as in Python). -/
def basename (p : FsPath) : String :=
  p.getLast?.getD ""

/-- Models `os.path.abspath` relative to a current working directory `cwd`
(normalisation of `.`/`..` is not modelled; the theorems only use already
normalised paths). -/
def abspath (cwd p : FsPath) : FsPath :=
  if p.head? = some "" then p else cwd ++ p

/-- Python dict lookup (`d.get(k)` / `d[k]`), as an `Option`. -/
def lookupSlot : SlotMap → String → Option SlotValue
  | [], _ => Option.none
  | kv :: rest, k => if kv.1 = k then some kv.2 else lookupSlot rest k

/-- Python dict assignment `d[k] = v`: replaces the binding of `k` in place
if present, otherwise appends a new binding. -/
def dictSet : SlotMap → String → SlotValue → SlotMap
  | [], k, v => [(k, v)]
  | kv :: rest, k, v => if kv.1 = k then (k, v) :: rest else kv :: dictSet rest k v

/-- The reserved stdio pipe keywords (`_PIPES` in the source). -/
def pipeKeywords : List String := ["IN_STDIN", "OUT_STDOUT", "OUT_STDERR"]

/-- The legal slot-keyword prefixes (`_PREFIXES` in the source). -/
def legalSlotKinds : List String :=
  ["IN_", "TEMP_IN_", "OUT_", "TEMP_OUT_", "EXEC_", "AUX_", "CHECK_"]

/-- Python truthiness of an optional slot value (`kwargs.get(key)`):
absent and `None` are falsy, an empty string is falsy, everything else
(including the `PIPE` sentinel, which is the nonzero int
`subprocess.PIPE`) is truthy. -/
def truthy : Option SlotValue → Bool
  | Option.none => false
  | some .none => false
  | some (.path p) => !p.isEmpty
  | some .pipe => true
  | some .cmd => true
  | some .callable => true

/-- `AtomicCmd._validate_pipes`: rejects a `kwargs` map in which any stdio
pipe is specified both with and without the `TEMP_` prefix (both truthy). -/
def validate_pipes (kwargs : SlotMap) : Except String Unit :=
  if pipeKeywords.any (fun pipe =>
      truthy (lookupSlot kwargs pipe) && truthy (lookupSlot kwargs ("TEMP_" ++ pipe)))
  then .error "Pipes must be specified at most once (w/wo TEMP_)."
  else .ok ()

/-- The final clause of `_validate_argument`: a `TEMP_` path value must not
contain a directory component (`os.path.dirname(value)` must be empty). -/
def checkTempDirname (key : String) (value : SlotValue) : Except String Bool :=
  match value with
  | .path p =>
    if strStarts key "TEMP_" && !p.dropLast.isEmpty then
      .error (key ++ " cannot contain directory component")
    else
      .ok true
  | _ => .ok true

/-- `AtomicCmd._validate_argument`: validates a single keyword/value pair.
Returns `false` for `None` values (which are silently dropped), `true` for
accepted pairs, and an error for grammar or type violations. -/
def validate_argument (key : String) (value : SlotValue) : Except String Bool :=
  if (rstripUnderscores key ++ "_") ∈ legalSlotKinds then
    .error ("Argument key lacks name: " ++ key)
  else if !(legalSlotKinds.any (fun pre => strStarts key pre)) then
    .error ("Command contains invalid argument (wrong prefix): 'AtomicCmd' -> '" ++ key ++ "'")
  else if value = .none then
    .ok false
  else if key = "OUT_STDOUT" ∨ key = "TEMP_OUT_STDOUT" then
    match value with
    | .path _ => checkTempDirname key value
    | .pipe => checkTempDirname key value
    | _ => .error ("STDOUT must be a string or AtomicCmd.PIPE, not " ++ key)
  else if key = "IN_STDIN" ∨ key = "TEMP_IN_STDIN" then
    match value with
    | .path _ => checkTempDirname key value
    | .cmd => checkTempDirname key value
    | _ => .error ("STDIN must be string or AtomicCmd, not " ++ key)
  else if strStarts key "CHECK_" then
    match value with
    | .callable => checkTempDirname key value
    | _ => .error ("CHECK must be callable, not " ++ key)
  else
    match value with
    | .path _ => checkTempDirname key value
    | _ => .error (key ++ " must be string, not given value")

/-- The validation fold of `_process_arguments`: builds `files` from
`kwargs`, keeping exactly the pairs accepted by `validate_argument` and
propagating the first validation error. -/
def collect_files (kwargs : SlotMap) : Except String SlotMap :=
  kwargs.foldlM (fun acc kv =>
    match validate_argument kv.1 kv.2 with
    | .error e => .error e
    | .ok keep => .ok (if keep then dictSet acc kv.1 kv.2 else acc)) []

/-- The auto-fill loop of `_process_arguments`: for each of `STDOUT` and
`STDERR`, if neither the `OUT_` nor the `TEMP_OUT_` form is truthy in
`kwargs`, binds `TEMP_OUT_<stream>` in `files` to the synthesised filename
`pipe_<basename(argv0)>_<proc_id>.<stream lowercased>`. -/
def autofill_pipes (proc_id : Nat) (command : List String) (kwargs files : SlotMap) : SlotMap :=
  ["STDOUT", "STDERR"].foldl (fun acc pipe =>
    if !(truthy (lookupSlot kwargs ("OUT_" ++ pipe)) ||
         truthy (lookupSlot kwargs ("TEMP_OUT_" ++ pipe))) then
      dictSet acc ("TEMP_OUT_" ++ pipe)
        (.path ["pipe_" ++ basenameStr (command.headD "") ++ "_" ++
                toString proc_id ++ "." ++ strLower pipe])
    else acc) files

/-- Is `key` an output slot keyword (`TEMP_OUT_` or `OUT_` prefixed)? -/
def isOutKey (key : String) : Bool :=
  strStarts key "TEMP_OUT_" || strStarts key "OUT_"

/-- The (basename, key) pairs collected by the duplicate-output check of
`_process_arguments`: one pair for each string-valued output slot of the raw
`kwargs` (auto-filled slots are not included, since the source loops over
`kwargs`, not over `files`). -/
def outPairs (kwargs : SlotMap) : List (String × String) :=
  kwargs.filterMap (fun kv =>
    if isOutKey kv.1 then
      match kv.2 with
      | .path p => some (basename p, kv.1)
      | _ => Option.none
    else Option.none)

/-- The `defaultdict(list)` grouping of output keys by basename used by the
duplicate-output check, in order of first appearance. -/
def dupOutputGroups (kwargs : SlotMap) : List (String × List String) :=
  ((outPairs kwargs).map Prod.fst).dedup.map (fun bn =>
    (bn, (outPairs kwargs).filterMap (fun q => if q.1 = bn then some q.2 else Option.none)))

/-- The first basename bound by more than one output key, with the offending
keys, if any (the group whose `len(keys) > 1` makes the source raise). -/
def findDuplicateOutput (kwargs : SlotMap) : Option (String × List String) :=
  (dupOutputGroups kwargs).find? (fun g => decide (1 < g.2.length))

/-- `AtomicCmd._process_arguments`: validates pipes, validates and collects
the slot map, auto-fills missing stdout/stderr slots, and rejects duplicate
output basenames among the caller-supplied slots. -/
def process_arguments (proc_id : Nat) (command : List String) (kwargs : SlotMap) :
    Except String SlotMap :=
  match validate_pipes kwargs with
  | .error e => .error e
  | .ok _ =>
    match collect_files kwargs with
    | .error e => .error e
    | .ok files0 =>
      let files1 := autofill_pipes proc_id command kwargs files0
      match findDuplicateOutput kwargs with
      | some g =>
        .error ("Same output filename (" ++ g.1 ++ ") is specified for multiple keys: " ++
                String.intercalate ", " g.2)
      | Option.none => .ok files1

/-- The per-slot body of `AtomicCmd._generate_filenames`: a string value of a
`TEMP_`/`OUT_` slot is joined onto the root by basename; a string value of an
`IN_`/`AUX_` slot is made absolute when the root is empty (set-cwd mode);
everything else is passed through unchanged. -/
def resolve_filename (cwd root : FsPath) (key : String) (value : SlotValue) : SlotValue :=
  match value with
  | .path p =>
    if strStarts key "TEMP_" || strStarts key "OUT_" then
      .path (root ++ [basename p])
    else if root.isEmpty && (strStarts key "IN_" || strStarts key "AUX_") then
      .path (abspath cwd p)
    else
      .path p
  | v => v

/-- `AtomicCmd._generate_filenames`: the dict `{"TEMP_DIR": root}` extended,
with Python dict-assignment semantics, by the resolved value of every slot. -/
def generate_filenames (cwd : FsPath) (files : SlotMap) (root : FsPath) : SlotMap :=
  files.foldl (fun acc kv => dictSet acc kv.1 (resolve_filename cwd root kv.1 kv.2))
    [("TEMP_DIR", .path root)]

/-- The filesystem state: a map from (component) paths to abstract file
contents, plus an inode assignment (modelling the device+inode pair
that `os.path.samefile` compares). -/
structure FS where
  files : List (FsPath × Nat)
  ino : FsPath → Nat

/-- Lookup in an entry list: the content of the first entry at path `p`. -/
def entriesFind : List (FsPath × Nat) → FsPath → Option Nat
  | [], _ => Option.none
  | e :: rest, p => if e.1 = p then some e.2 else entriesFind rest p

/-- Removal from an entry list: drops every entry at path `p`. -/
def entriesErase : List (FsPath × Nat) → FsPath → List (FsPath × Nat)
  | [], _ => []
  | e :: rest, p => if e.1 = p then entriesErase rest p else e :: entriesErase rest p

/-- The content stored at a path, if any. -/
def fsLookup (fs : FS) (p : FsPath) : Option Nat :=
  entriesFind fs.files p

/-- Remove the entry at `p` (no-op if absent). -/
def fsRemove (fs : FS) (p : FsPath) : FS :=
  { fs with files := entriesErase fs.files p }

/-- Create or overwrite the entry at `p`. -/
def fsSet (fs : FS) (p : FsPath) (c : Nat) : FS :=
  { fs with files := (p, c) :: entriesErase fs.files p }

/-- Modelled from the spec: `pypeline.common.fileutils.move_file` (the module
is not part of the sources under review).  "atomically move the temp file to
the slot's declared final path (within-filesystem rename where possible,
copy+unlink fallback across filesystems)": the source entry is removed and
its content appears at the destination.  On a missing source the real
function raises an `IOError`, which the spec's error taxonomy promotes to a
fatal commit failure; this is modelled as `.error`. -/
def move_file (fs : FS) (src dst : FsPath) : Except String FS :=
  match fsLookup fs src with
  | some c => .ok (fsSet (fsRemove fs src) dst c)
  | Option.none => .error ("No such file or directory: " ++ String.intercalate "/" src)

/-- Modelled from the spec: `pypeline.common.fileutils.try_remove` (the
module is not part of the sources under review).  "best-effort removal
(ignore not-found)". -/
def try_remove (fs : FS) (p : FsPath) : FS :=
  fsRemove fs p

/-- Models `os.listdir dir`: the basenames of the entries whose parent
directory is `dir`. -/
def listdir (fs : FS) (dir : FsPath) : List String :=
  fs.files.filterMap (fun e => if e.1.dropLast = dir then e.1.getLast? else Option.none)

/-- Models `os.path.samefile`: equality of device+inode, not of the textual
paths.  (The existence check of the real call is elided; `commit` only
compares directories that exist after `run`.) -/
def samefile (fs : FS) (a b : FsPath) : Bool :=
  fs.ino a = fs.ino b

/-- The state of the child process held in `self._proc`: `code` is the exit
status once the child has terminated (`Popen.poll`/`Popen.wait`). -/
structure ProcInfo where
  code : Option Int
deriving DecidableEq, Repr

/-- The mutable state of an `AtomicCmd` instance: `_proc`, `_temp`, the
supervisor-opened stdio handles `_handles` (keyed by pipe name, with their
mode and path), and the validated slot map `_files`. -/
structure CmdState where
  proc : Option ProcInfo
  temp : Option FsPath
  handles : List (String × String × FsPath)
  files : SlotMap
deriving DecidableEq, Repr

/-- `AtomicCmd.ready`: true iff the child has been started and has
terminated (`self._proc and self._proc.poll() is not None`). -/
def ready (s : CmdState) : Bool :=
  match s.proc with
  | some p => p.code.isSome
  | Option.none => false

/-- `AtomicCmd._open_pipe` for one stdio stream: looks up `pipe`, falling
back to `TEMP_<pipe>` (`kwords.get(pipe, kwords.get("TEMP_" + pipe))`); a
string filename is opened and recorded in the handle map, while `None`, the
`PIPE` sentinel and an upstream `AtomicCmd` leave the handle map unchanged.
(Opening is modelled as always succeeding; I/O errors are out of scope.) -/
def open_pipe (kwords : SlotMap) (handles : List (String × String × FsPath))
    (pipe mode : String) : List (String × String × FsPath) :=
  match (match lookupSlot kwords pipe with
         | some v => some v
         | Option.none => lookupSlot kwords ("TEMP_" ++ pipe)) with
  | some (.path p) => handles ++ [(pipe, mode, p)]
  | _ => handles

/-- `AtomicCmd.run`: rejects a command whose handle map is non-empty,
otherwise binds the temp root, opens the three stdio redirections against
the filenames resolved with `root = temp`, and spawns the child (modelled as
a `ProcInfo` with no exit code yet).  The spawn details (process group,
killlist registration) are modelled separately. -/
def run (cwd : FsPath) (s : CmdState) (temp : FsPath) : Except String CmdState :=
  if !s.handles.isEmpty then
    .error "Calling 'run' on already running command."
  else
    let kwords := generate_filenames cwd s.files temp
    let h1 := open_pipe kwords [] "IN_STDIN" "rb"
    let h2 := open_pipe kwords h1 "OUT_STDOUT" "wb"
    let h3 := open_pipe kwords h2 "OUT_STDERR" "wb"
    .ok { s with temp := some temp, handles := h3, proc := some { code := Option.none } }

/-- Models the external event of the child terminating with exit status `c`
(after which `Popen.poll`/`Popen.wait` return `c`). -/
def child_exits (s : CmdState) (c : Int) : CmdState :=
  { s with proc := s.proc.map (fun _ => { code := some c }) }

/-- `AtomicCmd.join`: `[self._proc.wait()] if self._proc else [None]`, and
(in the `finally` block) flushes and closes every supervisor-opened handle,
emptying the handle map.  `wait` is modelled as returning the recorded exit
status; the theorems only call `join` when the child has terminated or no
child exists, matching the blocking behaviour of the real call. -/
def join (s : CmdState) : List (Option Int) × CmdState :=
  (match s.proc with
   | some p => [p.code]
   | Option.none => [Option.none],
   { s with handles := [] })

/-- `AtomicCmd.wait`: `self.join()[0]`. -/
def wait (s : CmdState) : Option Int :=
  (join s).1.getD 0 Option.none

/-- `AtomicCmd.terminate`: if the child is still running, sends `SIGTERM`
and sets `self._proc = None`; otherwise does nothing.  (The `except OSError`
branch for a process that died concurrently is not modelled.) -/
def terminate (s : CmdState) : CmdState :=
  match s.proc with
  | some p => if p.code = Option.none then { s with proc := Option.none } else s
  | Option.none => s

/-- `AtomicCmd.expected_temp_files` for a validated slot map: the set of
basenames of the string-valued `OUT_` slots (the `output_fname` entry of
`_build_files_map`), as a duplicate-free list.  (Keys of a validated map
carrying the `OUT` kind are exactly those with the `OUT_` prefix.) -/
def expected_temp_files (files : SlotMap) : List String :=
  ((files.filterMap (fun kv =>
      match kv.2 with
      | .path p => if strStarts kv.1 "OUT_" then some p else Option.none
      | _ => Option.none)).map basename).dedup

/-- The set difference `expected_temp_files - set(os.listdir(temp))`
computed by `commit`, as a duplicate-free list of missing basenames. -/
def missing_files (fs : FS) (files : SlotMap) (temp : FsPath) : List String :=
  (expected_temp_files files).filter (fun b => !(listdir fs temp).contains b)

/-- One iteration of the move/remove loop of `commit`, for the slot `kv`
resolved against the absolute temp root `root` (the `_generate_filenames`
resolution of an output slot is inlined: its resolved filename is
`root ++ [basename value]`, and `self._files[key]` is the slot's own value
since slot keys are unique): a string-valued `OUT_` slot is moved from the
temp root to its declared path, a string-valued `TEMP_OUT_` slot is removed
from the temp root, everything else is untouched. -/
def commit_step (root : FsPath) (acc : FS) (kv : String × SlotValue) :
    Except String FS :=
  match kv.2 with
  | .path p =>
    if strStarts kv.1 "OUT_" then
      move_file acc (root ++ [basename p]) p
    else if strStarts kv.1 "TEMP_OUT_" then
      .ok (try_remove acc (root ++ [basename p]))
    else .ok acc
  | _ => .ok acc

/-- The move/remove loop of `commit` over all slots, with the temp root made
absolute (`temp = os.path.abspath(temp)`).  The `TEMP_DIR` entry of the
resolved dict is skipped by the loop's prefix tests and is therefore not
iterated here.  A failing move aborts the loop; promotions already
performed are not rolled back (the error escapes `commit`, leaving the
caller to observe the partially promoted filesystem). -/
def commitMoves (cwd temp : FsPath) (files : SlotMap) (fs : FS) :
    Except String FS :=
  files.foldlM (commit_step (abspath cwd temp)) fs

/-- `AtomicCmd.commit`: rejects (raising `CmdError`, with no filesystem
effect) unless the child has terminated, `join` has closed all handles, the
given temp directory is `samefile` with the one bound by `run`, and every
expected output basename is present in the temp directory; then moves
string-valued `OUT_` slots to their destinations, removes string-valued
`TEMP_OUT_` slots, and clears `_proc` and `_temp`.  (A state whose `_temp`
was never bound fails the `ready` check first whenever it is reachable; the
unreachable combination is modelled as an error, where the real code would
raise a `TypeError` inside `samefile`.) -/
def commit (cwd : FsPath) (s : CmdState) (fs : FS) (temp : FsPath) :
    Except String (CmdState × FS) :=
  if !ready s then
    .error "Attempting to commit command before it has completed"
  else if !s.handles.isEmpty then
    .error "Called 'commit' before calling 'join'"
  else
    match s.temp with
    | Option.none => .error "Mismatch between previous and current temp folders: None"
    | some t0 =>
      if !samefile fs t0 temp then
        .error ("Mismatch between previous and current temp folders: " ++
                String.intercalate "/" t0 ++ " != " ++ String.intercalate "/" temp)
      else if !(missing_files fs s.files temp).isEmpty then
        .error ("Expected files not created: " ++
                String.intercalate ", " (missing_files fs s.files temp))
      else
        match commitMoves cwd temp s.files fs with
        | .error e => .error e
        | .ok fs2 =>
          .ok ({ s with proc := Option.none, temp := Option.none }, fs2)

/-- The process-wide killlist (`_PROCS`) together with whether the `SIGTERM`
handler has been installed.  A weak reference is modelled as `Option Nat`:
`some pid` while the referent is alive, `none` once collected. -/
structure KillState where
  procs : List (Option Nat)
  handlerInstalled : Bool
deriving DecidableEq, Repr

/-- `_add_to_killlist`: installs the `SIGTERM` handler iff the killlist is
empty before the insertion (`if not _PROCS: signal.signal(...)`), then adds
the weak reference.  The returned flag records whether the handler was
installed by this call. -/
def add_to_killlist (st : KillState) (r : Option Nat) : KillState × Bool :=
  ({ procs := st.procs ++ [r],
     handlerInstalled := st.handlerInstalled || st.procs.isEmpty },
   st.procs.isEmpty)

/-- `_cleanup_children`: iterates a snapshot of the killlist, sends
`SIGTERM` to the process group of every still-live child (`os.killpg` on the
group of which the child is the leader), then exits the host process with
status `-signum`.  Returns the list of signalled process groups (in
iteration order) and the exit status. -/
def cleanup_children (procs : List (Option Nat)) (signum : Int) : List Nat × Int :=
  (procs.foldl (fun kills r =>
     match r with
     | some pid => kills ++ [pid]
     | Option.none => kills) [],
   -signum)

/-- The classification of a BAM file returned by
`database.validate_bam` in the zonkey pipeline. -/
structure FileType where
  is_nuclear : Bool
  is_mitochondrial : Bool
deriving DecidableEq, Repr

/-- The per-sample `files` dict built by `_process_samples`: the nuclear
("Nuc") and mitochondrial ("Mito") BAM recorded so far. -/
structure SampleFiles where
  nuc : Option String
  mito : Option String
deriving DecidableEq, Repr

/-- One iteration of the file loop of `_process_samples` in
`paleomix/tools/zonkey/config.py`: classifies `entry` (filename plus its
`validate_bam` result, `none` for an invalid BAM) against the files recorded
so far; an `ERROR:` line makes the sample validation return `False`
(modelled as `.error` carrying the message), otherwise the updated record
and any `WARNING:` lines are returned. -/
def process_sample_file (files : SampleFiles) (entry : String × Option FileType) :
    Except String (SampleFiles × List String) :=
  match entry.2 with
  | Option.none => .error ("ERROR: File is not a valid BAM file: " ++ entry.1 ++ "\n")
  | some ft =>
    if ft.is_nuclear && ft.is_mitochondrial then
      if files.nuc.isSome then
        .error "ERROR: Two nuclear BAMs specified!\n"
      else
        .ok ({ nuc := some entry.1, mito := some (files.mito.getD entry.1) },
             if files.mito.isSome then
               ["WARNING: Nuclear + mitochondrial BAM, and mitochondrial BAM specified; the mitochondrial genome in the first BAM will not be used!\n"]
             else [])
    else if ft.is_nuclear then
      if files.nuc.isSome then
        .error "ERROR: Two nuclear BAMs specified!\n"
      else
        .ok ({ files with nuc := some entry.1 }, [])
    else if ft.is_mitochondrial then
      if files.mito.isSome then
        .error "ERROR: Two nuclear BAMs specified!\n"
      else
        .ok ({ files with mito := some entry.1 }, [])
    else
      .error ("ERROR: BAM does not contain known nuclear or mitochondrial contigs: " ++
              entry.1 ++ "\n")

/-- The file loop of `_process_samples` over a sample's file list,
accumulating warnings and stopping at the first error (on which the
validator returns `False`). -/
def process_sample_files (files : SampleFiles) (warns : List String)
    (entries : List (String × Option FileType)) :
    Except String (SampleFiles × List String) :=
  match entries with
  | [] => .ok (files, warns)
  | e :: rest =>
    match process_sample_file files e with
    | .error m => .error m
    | .ok (f, w) => process_sample_files f (warns ++ w) rest

/-- The slot map of the demonstration descriptor used for the C3
counterexample (the auto-filled stdout/stderr slots of a command with no
keyword arguments). -/
def c3files : SlotMap :=
  [("TEMP_OUT_STDOUT", SlotValue.path ["ps.out"]),
   ("TEMP_OUT_STDERR", SlotValue.path ["ps.err"])]

/-- The freshly constructed demonstration descriptor. -/
def c3s0 : CmdState :=
  { proc := Option.none, temp := Option.none, handles := [], files := c3files }

/-- The temp root used by the demonstration. -/
def c3temp : FsPath := ["", "tmp"]

/-- The demonstration descriptor right after its first launch. -/
def c3s1 : CmdState := (run [""] c3s0 c3temp).toOption.getD c3s0

/-- The demonstration descriptor after the child exited with status 0 and
`join` was called. -/
def c3s3 : CmdState := (join (child_exits c3s1 0)).2

/-- The filesystem of the demonstration (the temp directory holds no files;
the descriptor declares no `OUT_` outputs). -/
def c3fs : FS := { files := [], ino := fun _ => 0 }

/-- The demonstration descriptor after a successful `commit`. -/
def c3s4 : CmdState :=
  match commit [""] c3s3 c3fs c3temp with
  | .ok r => r.1
  | .error _ => c3s3

/-- The descriptor state used by the C1 witness: the child exited with
status 0, `join` has been called, and the temp root `/t` is bound. -/
def c1state : CmdState :=
  { proc := some ⟨some 0⟩, temp := some ["", "t"], handles := [],
    files := [("OUT_X", SlotValue.path ["", "d", "x"])] }

/-- The filesystem used by the C1 witness: the declared output basename `x`
exists in the temp root. -/
def c1fs : FS :=
  { files := [(["", "t", "x"], 5)], ino := fun _ => 0 }


/-- The basenames of all string-valued output slots (`OUT_` and
`TEMP_OUT_`) of a slot map, in order. -/
def outputBasenames (files : SlotMap) : List String :=
  files.filterMap (fun kv =>
    match kv.2 with
    | SlotValue.path p => if isOutKey kv.1 then some (basename p) else Option.none
    | _ => Option.none)

/-- The paths at which one iteration of the commit loop may change the
filesystem: the temp-root source (and, for an `OUT_` slot, the declared
destination) of a string-valued output slot. -/
def touchedPaths (root : FsPath) (kv : String × SlotValue) : List FsPath :=
  match kv.2 with
  | SlotValue.path p =>
    if strStarts kv.1 "OUT_" then [root ++ [basename p], p]
    else if strStarts kv.1 "TEMP_OUT_" then [root ++ [basename p]]
    else []
  | _ => []

/-- Does the destination of an `OUT_` slot lie outside the temp root?
(Trivially true for every other slot.) -/
def outDestOutsideTemp (temp : FsPath) (kv : String × SlotValue) : Bool :=
  match kv.2 with
  | SlotValue.path p => !(strStarts kv.1 "OUT_") || decide (p.dropLast ≠ temp)
  | _ => true

/-- The descriptor used by the C2 witness: one declared output `/d/x`, plus
the two auto-filled temp pipe files; the child exited with status 0 and
`join` has run. -/
def c2state : CmdState :=
  { proc := some ⟨some 0⟩, temp := some ["", "t"], handles := [],
    files := [("OUT_X", SlotValue.path ["", "d", "x"]),
              ("TEMP_OUT_STDOUT", SlotValue.path ["so"]),
              ("TEMP_OUT_STDERR", SlotValue.path ["se"])] }

/-- The filesystem used by the C2 witness: the temp root `/t` holds the
declared output, one pipe file and one unrelated file. -/
def c2fs : FS :=
  { files := [(["", "t", "x"], 1), (["", "t", "so"], 2), (["", "t", "keep"], 9)],
    ino := fun _ => 0 }


/-- The slot map `_process_arguments` produces for the C2 counterexample:
the caller declares a destination that lies inside the temp root and
collides with the auto-filled stdout pipe filename (descriptor id 7,
executable `cat`). -/
def c2badfiles : SlotMap :=
  [("OUT_X", SlotValue.path ["", "t", "pipe_cat_7.stdout"]),
   ("TEMP_OUT_STDOUT", SlotValue.path ["pipe_cat_7.stdout"]),
   ("TEMP_OUT_STDERR", SlotValue.path ["pipe_cat_7.stderr"])]

/-- The C2 counterexample descriptor after its child exited and `join` ran. -/
def c2bad : CmdState :=
  { proc := some ⟨some 0⟩, temp := some ["", "t"], handles := [],
    files := c2badfiles }

/-- The filesystem of the C2 counterexample: the temp root `/t` holds the
two pipe files written by the child. -/
def c2badfs : FS :=
  { files := [(["", "t", "pipe_cat_7.stdout"], 1),
              (["", "t", "pipe_cat_7.stderr"], 2)],
    ino := fun _ => 0 }

/-- The filesystem left by the C2 counterexample commit. -/
def c2badfs2 : FS :=
  match commit ["", "c"] c2bad c2badfs ["", "t"] with
  | .ok r => r.2
  | .error _ => c2badfs

/-- The filesystem left by the C2 witness commit. -/
def c2fs2 : FS :=
  match commit ["", "c"] c2state c2fs ["", "t"] with
  | .ok r => r.2
  | .error _ => c2fs


/-! ## Helper lemmas -/

theorem lookupSlot_dictSet_self (d : SlotMap) (k : String) (v : SlotValue) :
    lookupSlot (dictSet d k v) k = some v := by
  induction d with
  | nil => simp [dictSet, lookupSlot]
  | cons kv rest ih =>
    by_cases h : kv.1 = k <;> simp [dictSet, lookupSlot, h, ih]

theorem lookupSlot_dictSet_ne (d : SlotMap) (k k2 : String) (v : SlotValue)
    (h : k2 ≠ k) : lookupSlot (dictSet d k v) k2 = lookupSlot d k2 := by
  have h3 : ¬(k = k2) := fun e => h e.symm
  induction d with
  | nil => simp [dictSet, lookupSlot, h3]
  | cons kv rest ih =>
    by_cases h1 : kv.1 = k
    · have h2 : ¬(kv.1 = k2) := by rw [h1]; exact h3
      simp [dictSet, lookupSlot, h1, h2, h3]
    · by_cases h2 : kv.1 = k2 <;> simp [dictSet, lookupSlot, h, h1, h2, ih]

theorem cleanup_fold_mem (ps : List (Option Nat)) (acc : List Nat) (pid : Nat) :
    (pid ∈ ps.foldl (fun kills r =>
        match r with
        | some q => kills ++ [q]
        | Option.none => kills) acc) ↔ (pid ∈ acc ∨ some pid ∈ ps) := by
  induction ps generalizing acc with
  | nil => simp
  | cons r rest ih =>
    cases r with
    | none => simp [ih]
    | some q =>
      rw [List.foldl_cons]
      simp [ih, List.mem_append, or_assoc]

/-! ## Claim theorems -/

/-- Claim C8: registering a child installs the `SIGTERM` handler exactly when
the process-wide killlist is empty before the insertion; the handler iterates
a snapshot of the registered weak references, sends `SIGTERM` to the process
group of every child whose weak reference is still live, and exits the host
process with status `-signum`. -/
theorem c8_killlist_handler :
    ∀ (st : KillState) (r : Option Nat) (ps : List (Option Nat)) (signum : Int),
      ((add_to_killlist st r).2 = true ↔ st.procs = []) ∧
      (add_to_killlist st r).1.procs = st.procs ++ [r] ∧
      (∀ pid : Nat, pid ∈ (cleanup_children ps signum).1 ↔ some pid ∈ ps) ∧
      (cleanup_children ps signum).2 = -signum := by
  intro st r ps signum
  refine ⟨?_, rfl, ?_, rfl⟩
  · simp [add_to_killlist, List.isEmpty_iff]
  · intro pid
    simpa using cleanup_fold_mem ps [] pid

/-- Claim C9: in the zonkey sample validator, a second mitochondrial-only BAM
(with a "Mito" entry already recorded) makes validation fail, and the error
emitted is the same message used for two nuclear BAMs, namely
"ERROR: Two nuclear BAMs specified!". -/
theorem c9_second_mito_reuses_nuclear_message :
    ∀ (files : SampleFiles) (warns : List String)
      (rest : List (String × Option FileType)) (fn m : String),
      files.mito = some m →
      (process_sample_files files warns ((fn, some ⟨false, true⟩) :: rest) =
        .error "ERROR: Two nuclear BAMs specified!\n") ∧
      (∀ (files2 : SampleFiles) (warns2 : List String)
         (rest2 : List (String × Option FileType)) (fn2 n : String),
         files2.nuc = some n →
         process_sample_files files2 warns2 ((fn2, some ⟨true, false⟩) :: rest2) =
           .error "ERROR: Two nuclear BAMs specified!\n") := by
  intro files warns rest fn m hm
  constructor
  · simp [process_sample_files, process_sample_file, hm]
  · intro files2 warns2 rest2 fn2 n hn
    simp [process_sample_files, process_sample_file, hn]

/-- Witness for C9: a sample that already recorded `m.bam` as its
mitochondrial BAM rejects a second mitochondrial-only BAM with the
two-nuclear-BAMs message. -/
theorem c9_second_mito_reuses_nuclear_message_witness :
    (⟨Option.none, some "m.bam"⟩ : SampleFiles).mito = some "m.bam" ∧
    process_sample_files ⟨Option.none, some "m.bam"⟩ []
        [("m2.bam", some ⟨false, true⟩)] =
      .error "ERROR: Two nuclear BAMs specified!\n" :=
  ⟨rfl, (c9_second_mito_reuses_nuclear_message ⟨Option.none, some "m.bam"⟩ []
      [] "m2.bam" "m.bam" rfl).1⟩

/-- Claim C10: `join` on a descriptor that was never run does not raise; it
returns the single-element list `[None]` (so `wait` returns `None`), and the
handle map is empty afterwards. -/
theorem c10_join_without_run :
    ∀ (s : CmdState), s.proc = Option.none →
      join s = ([Option.none], { s with handles := [] }) ∧
      (join s).2.handles = [] ∧
      wait s = Option.none := by
  intro s h
  refine ⟨?_, rfl, ?_⟩ <;> simp [join, wait, h]

/-- Witness for C10 at a concrete never-run descriptor. -/
theorem c10_join_without_run_witness :
    (⟨Option.none, Option.none, [], [("OUT_X", SlotValue.path ["x"])]⟩ : CmdState).proc =
      Option.none ∧
    (join ⟨Option.none, Option.none, [], [("OUT_X", SlotValue.path ["x"])]⟩ =
       ([Option.none],
        { (⟨Option.none, Option.none, [], [("OUT_X", SlotValue.path ["x"])]⟩ : CmdState) with
            handles := [] }) ∧
     (join ⟨Option.none, Option.none, [], [("OUT_X", SlotValue.path ["x"])]⟩).2.handles = [] ∧
     wait ⟨Option.none, Option.none, [], [("OUT_X", SlotValue.path ["x"])]⟩ = Option.none) :=
  ⟨rfl, c10_join_without_run _ rfl⟩

/-- Claim C4 (divergence evidence): after `terminate` is called on a
descriptor whose child is still running, `join` returns `[None]` — not the
signal-derived exit code — because `terminate` discards the process handle
(`self._proc = None`) before `join` can reap it. -/
theorem c4_terminate_then_join_returns_none :
    ∀ (s : CmdState) (p : ProcInfo), s.proc = some p → p.code = Option.none →
      (join (terminate s)).1 = [Option.none] := by
  intro s p hp hc
  simp [terminate, join, hp, hc]

/-- Witness for C4 at a concrete running descriptor. -/
theorem c4_terminate_then_join_returns_none_witness :
    (⟨some ⟨Option.none⟩, some ["", "t"], [], []⟩ : CmdState).proc = some ⟨Option.none⟩ ∧
    (⟨Option.none⟩ : ProcInfo).code = Option.none ∧
    (join (terminate ⟨some ⟨Option.none⟩, some ["", "t"], [], []⟩)).1 = [Option.none] :=
  ⟨rfl, rfl, c4_terminate_then_join_returns_none _ ⟨Option.none⟩ rfl rfl⟩

/-- Counterexample to claim C3: a descriptor that has already been launched
(its first `run` succeeded and opened stdio handles) can be run again
without any `CmdError` once `join` has emptied the handle map — also after a
successful `commit`.  The single-use guard only rejects while handles are
open. -/
theorem c3_counterexample :
    (run [""] c3s0 c3temp).isOk = true ∧
    c3s1.handles ≠ [] ∧
    (join (child_exits c3s1 0)).1 = [some 0] ∧
    (commit [""] c3s3 c3fs c3temp).isOk = true ∧
    (run [""] c3s4 c3temp).isOk = true :=
  ⟨rfl, by decide, rfl, rfl, rfl⟩

/-- Claim C3 as amended: `run` raises the `CmdError` usage error exactly when
the handle map is non-empty, i.e. when the descriptor has been launched and
`join` has not yet been called; after `join` (and hence after `commit`)
clears the handles, a second `run` is not prevented. -/
theorem c3_run_guard_iff_open_handles :
    ∀ (cwd : FsPath) (s : CmdState) (temp : FsPath),
      (∃ msg, run cwd s temp = .error msg) ↔ s.handles ≠ [] := by
  intro cwd s temp
  cases h : s.handles with
  | nil => simp [run, h]
  | cons a t => simp [run, h]

theorem genfiles_lookup_notmem (cwd root : FsPath) (l : SlotMap) (acc : SlotMap)
    (k : String) (h : k ∉ l.map Prod.fst) :
    lookupSlot (l.foldl (fun acc kv =>
        dictSet acc kv.1 (resolve_filename cwd root kv.1 kv.2)) acc) k =
      lookupSlot acc k := by
  induction l generalizing acc with
  | nil => rfl
  | cons kv rest ih =>
    simp only [List.map_cons, List.mem_cons, not_or] at h
    rw [List.foldl_cons, ih _ h.2, lookupSlot_dictSet_ne _ _ _ _ h.1]

theorem genfiles_lookup_mem (cwd root : FsPath) (l : SlotMap) (acc : SlotMap)
    (k : String) (v : SlotValue) (hmem : (k, v) ∈ l)
    (hnd : (l.map Prod.fst).Nodup) :
    lookupSlot (l.foldl (fun acc kv =>
        dictSet acc kv.1 (resolve_filename cwd root kv.1 kv.2)) acc) k =
      some (resolve_filename cwd root k v) := by
  induction l generalizing acc with
  | nil => cases hmem
  | cons kv rest ih =>
    simp only [List.map_cons, List.nodup_cons] at hnd
    rcases List.mem_cons.mp hmem with heq | hrest
    · rw [← heq] at hnd ⊢
      rw [List.foldl_cons, genfiles_lookup_notmem _ _ _ _ _ hnd.1,
        lookupSlot_dictSet_self]
    · rw [List.foldl_cons]
      exact ih _ hrest hnd.2

/-- Claim C6: for a slot map with unique keys not containing the reserved
key `TEMP_DIR`, the filename resolver maps `TEMP_DIR` to the root `R`; every
`TEMP_`/`OUT_`-prefixed slot holding a string path to `R ++ [basename
value]`; every `IN_`/`AUX_`-prefixed slot holding a string path to the
absolute path of the value exactly when `R` is empty (and to the unchanged
value otherwise); and every other slot value unchanged. -/
theorem c6_filename_resolver :
    ∀ (cwd root : FsPath) (files : SlotMap),
      (files.map Prod.fst).Nodup →
      "TEMP_DIR" ∉ files.map Prod.fst →
      lookupSlot (generate_filenames cwd files root) "TEMP_DIR" =
        some (SlotValue.path root) ∧
      (∀ k p, (k, SlotValue.path p) ∈ files →
        (strStarts k "TEMP_" || strStarts k "OUT_") = true →
        lookupSlot (generate_filenames cwd files root) k =
          some (SlotValue.path (root ++ [basename p]))) ∧
      (∀ k p, (k, SlotValue.path p) ∈ files →
        (strStarts k "TEMP_" || strStarts k "OUT_") = false →
        (strStarts k "IN_" || strStarts k "AUX_") = true →
        lookupSlot (generate_filenames cwd files root) k =
          some (SlotValue.path (if root.isEmpty then abspath cwd p else p))) ∧
      (∀ k v, (k, v) ∈ files →
        ((∀ p, v ≠ SlotValue.path p) ∨
         ((strStarts k "TEMP_" || strStarts k "OUT_") = false ∧
          (strStarts k "IN_" || strStarts k "AUX_") = false)) →
        lookupSlot (generate_filenames cwd files root) k = some v) := by
  intro cwd root files hnd hnotmem
  refine ⟨?_, ?_, ?_, ?_⟩
  · rw [generate_filenames, genfiles_lookup_notmem _ _ _ _ _ hnotmem]
    simp [lookupSlot]
  · intro k p hmem hpre
    rw [generate_filenames, genfiles_lookup_mem _ _ _ _ _ _ hmem hnd]
    simp [resolve_filename, hpre]
  · intro k p hmem hpre hin
    rw [generate_filenames, genfiles_lookup_mem _ _ _ _ _ _ hmem hnd]
    simp only [resolve_filename, hpre, Bool.false_eq_true, if_false, hin,
      Bool.and_true]
    split <;> rfl
  · intro k v hmem hcase
    rw [generate_filenames, genfiles_lookup_mem _ _ _ _ _ _ hmem hnd]
    rcases hcase with hnp | ⟨hpre, hin⟩
    · cases v with
      | path p => exact absurd rfl (hnp p)
      | pipe => rfl
      | cmd => rfl
      | callable => rfl
      | none => rfl
    · cases v <;> simp [resolve_filename, hpre, hin]

/-- Witness for C6 at a concrete slot map with a temp output, an input and a
callable slot. -/
theorem c6_filename_resolver_witness :
    ((([("TEMP_OUT_X", SlotValue.path ["x"]), ("IN_Y", SlotValue.path ["", "d", "y"]),
        ("CHECK_V", SlotValue.callable)] : SlotMap).map Prod.fst).Nodup ∧
     "TEMP_DIR" ∉ ([("TEMP_OUT_X", SlotValue.path ["x"]),
        ("IN_Y", SlotValue.path ["", "d", "y"]),
        ("CHECK_V", SlotValue.callable)] : SlotMap).map Prod.fst) ∧
    lookupSlot (generate_filenames ["", "c"]
        [("TEMP_OUT_X", SlotValue.path ["x"]), ("IN_Y", SlotValue.path ["", "d", "y"]),
         ("CHECK_V", SlotValue.callable)] ["", "t"]) "TEMP_DIR" =
      some (SlotValue.path ["", "t"]) ∧
    lookupSlot (generate_filenames ["", "c"]
        [("TEMP_OUT_X", SlotValue.path ["x"]), ("IN_Y", SlotValue.path ["", "d", "y"]),
         ("CHECK_V", SlotValue.callable)] ["", "t"]) "TEMP_OUT_X" =
      some (SlotValue.path (["", "t"] ++ [basename ["x"]])) ∧
    lookupSlot (generate_filenames ["", "c"]
        [("TEMP_OUT_X", SlotValue.path ["x"]), ("IN_Y", SlotValue.path ["", "d", "y"]),
         ("CHECK_V", SlotValue.callable)] ["", "t"]) "IN_Y" =
      some (SlotValue.path (if (["", "t"] : FsPath).isEmpty then
        abspath ["", "c"] ["", "d", "y"] else ["", "d", "y"])) ∧
    lookupSlot (generate_filenames ["", "c"]
        [("TEMP_OUT_X", SlotValue.path ["x"]), ("IN_Y", SlotValue.path ["", "d", "y"]),
         ("CHECK_V", SlotValue.callable)] ["", "t"]) "CHECK_V" =
      some SlotValue.callable :=
  have h := c6_filename_resolver ["", "c"]
    ["", "t"]
    [("TEMP_OUT_X", SlotValue.path ["x"]), ("IN_Y", SlotValue.path ["", "d", "y"]),
     ("CHECK_V", SlotValue.callable)] (by decide) (by decide)
  ⟨⟨by decide, by decide⟩, h.1,
    h.2.1 "TEMP_OUT_X" ["x"] (by simp) (by decide),
    h.2.2.1 "IN_Y" ["", "d", "y"] (by simp) (by decide) (by decide),
    h.2.2.2 "CHECK_V" SlotValue.callable (by simp) (Or.inl (by intro p h; cases h))⟩

theorem one_lt_length_of_two_mem {α : Type} {a b : α} {l : List α}
    (ha : a ∈ l) (hb : b ∈ l) (hne : a ≠ b) : 1 < l.length := by
  match l with
  | [] => cases ha
  | [x] =>
    rw [List.mem_singleton] at ha hb
    exact absurd (ha.trans hb.symm) hne
  | x :: y :: t => simp [List.length_cons]

/-- Counterexample to claim C5: a descriptor whose only caller-supplied slot
is `OUT_X = "pipe_cat_7.stdout"` (with descriptor id 7 and executable `cat`)
is accepted, yet its auto-filled `TEMP_OUT_STDOUT` slot resolves to the same
basename as `OUT_X` — the duplicate-basename check only inspects the raw
`kwargs`, not the auto-filled slots. -/
theorem c5_counterexample :
    process_arguments 7 ["cat"] [("OUT_X", SlotValue.path ["pipe_cat_7.stdout"])] =
      .ok [("OUT_X", SlotValue.path ["pipe_cat_7.stdout"]),
           ("TEMP_OUT_STDOUT", SlotValue.path ["pipe_cat_7.stdout"]),
           ("TEMP_OUT_STDERR", SlotValue.path ["pipe_cat_7.stderr"])] ∧
    isOutKey "OUT_X" = true ∧
    isOutKey "TEMP_OUT_STDOUT" = true ∧
    ("OUT_X" : String) ≠ "TEMP_OUT_STDOUT" ∧
    basename ["pipe_cat_7.stdout"] = basename ["pipe_cat_7.stdout"] :=
  ⟨rfl, by decide, by decide, by decide, rfl⟩

/-- Claim C1: `commit(temp)` raises a usage error — with no filesystem
effect, since the model only applies the move loop in the success branch —
unless the child has terminated (`ready`), `join` has emptied the handle
map, `temp` denotes the same directory as the bound temp root under the
device+inode comparison `samefile` (not textual path equality), and no
expected output basename is missing from `listdir(temp)`; when expected
files are missing, the message lists exactly the missing basenames.  When
all four gates pass, no usage error is raised: `commit` succeeds unless the
move loop itself fails, and then with exactly the loop's I/O error. -/
theorem c1_commit_gate :
    ∀ (cwd : FsPath) (s : CmdState) (fs : FS) (temp t0 : FsPath),
      s.temp = some t0 →
      ((¬ (ready s = true ∧ s.handles = [] ∧ samefile fs t0 temp = true ∧
           missing_files fs s.files temp = [])) →
         ∃ msg, commit cwd s fs temp = .error msg) ∧
      ((ready s = true ∧ s.handles = [] ∧ samefile fs t0 temp = true ∧
        missing_files fs s.files temp = []) →
         (∃ r, commit cwd s fs temp = .ok r) ∨
         (∃ msg, commitMoves cwd temp s.files fs = .error msg ∧
                 commit cwd s fs temp = .error msg)) ∧
      (ready s = true → s.handles = [] → samefile fs t0 temp = true →
       missing_files fs s.files temp ≠ [] →
         commit cwd s fs temp = .error ("Expected files not created: " ++
           String.intercalate ", " (missing_files fs s.files temp))) ∧
      (∀ b, b ∈ missing_files fs s.files temp ↔
         (b ∈ expected_temp_files s.files ∧ b ∉ listdir fs temp)) := by
  intro cwd s fs temp t0 ht
  refine ⟨?_, ?_, ?_, ?_⟩
  · intro hna
    cases hr : ready s with
    | false => exact ⟨_, by simp [commit, hr]; rfl⟩
    | true =>
      cases hh : s.handles with
      | cons a t => exact ⟨_, by simp [commit, hr, hh]; rfl⟩
      | nil =>
        cases hs : samefile fs t0 temp with
        | false => exact ⟨_, by simp [commit, hr, hh, ht, hs]; rfl⟩
        | true =>
          cases hm : missing_files fs s.files temp with
          | cons b bs => exact ⟨_, by simp [commit, hr, hh, ht, hs, hm]; rfl⟩
          | nil => exact absurd ⟨hr, hh, hs, hm⟩ hna
  · rintro ⟨hr, hh, hs, hm⟩
    cases hcm : commitMoves cwd temp s.files fs with
    | ok fs2 => exact Or.inl ⟨_, by simp [commit, hr, hh, ht, hs, hm, hcm]; rfl⟩
    | error e =>
      exact Or.inr ⟨e, rfl, by simp [commit, hr, hh, ht, hs, hm, hcm]⟩
  · intro hr hh hs hm
    cases hmc : missing_files fs s.files temp with
    | nil => exact absurd hmc hm
    | cons b bs => simp [commit, hr, hh, ht, hs, hmc]
  · intro b
    simp [missing_files, List.mem_filter, List.elem_iff, List.contains]

/-- Witness for C1: with all four conditions satisfied at a concrete state,
`commit` succeeds (the move loop finds its source and raises nothing). -/
theorem c1_commit_gate_witness :
    c1state.temp = some ["", "t"] ∧
    (ready c1state = true ∧ c1state.handles = [] ∧
     samefile c1fs ["", "t"] ["", "t"] = true ∧
     missing_files c1fs c1state.files ["", "t"] = []) ∧
    (commit ["", "c"] c1state c1fs ["", "t"]).isOk = true ∧
    ((∃ r, commit ["", "c"] c1state c1fs ["", "t"] = .ok r) ∨
     (∃ msg, commitMoves ["", "c"] ["", "t"] c1state.files c1fs = .error msg ∧
             commit ["", "c"] c1state c1fs ["", "t"] = .error msg)) :=
  ⟨rfl, ⟨rfl, rfl, by decide, by decide⟩, rfl,
   (c1_commit_gate ["", "c"] c1state c1fs ["", "t"] ["", "t"] rfl).2.1
     ⟨rfl, rfl, by decide, by decide⟩⟩

theorem entriesFind_erase (l : List (FsPath × Nat)) (p q : FsPath) :
    entriesFind (entriesErase l p) q =
      if q = p then Option.none else entriesFind l q := by
  induction l with
  | nil => by_cases h : q = p <;> simp [entriesErase, entriesFind, h]
  | cons e rest ih =>
    by_cases hqp : q = p
    · subst hqp
      by_cases hep : e.1 = q <;> simp [entriesErase, entriesFind, hep, ih]
    · have hpq : ¬ p = q := fun h => hqp h.symm
      by_cases hep : e.1 = p
      · have heq : ¬ e.1 = q := by rw [hep]; exact hpq
        simp [entriesErase, entriesFind, hep, hqp, heq, hpq, ih]
      · by_cases heq : e.1 = q <;>
          simp [entriesErase, entriesFind, hep, hqp, heq, hpq, ih]

theorem fsLookup_fsRemove (fs : FS) (p q : FsPath) :
    fsLookup (fsRemove fs p) q =
      if q = p then Option.none else fsLookup fs q := by
  unfold fsLookup fsRemove
  exact entriesFind_erase fs.files p q

theorem fsLookup_fsSet (fs : FS) (p : FsPath) (c : Nat) (q : FsPath) :
    fsLookup (fsSet fs p c) q = if q = p then some c else fsLookup fs q := by
  unfold fsSet fsLookup
  by_cases hqp : q = p
  · simp [entriesFind, hqp]
  · have hpq : ¬ (p = q) := fun h => hqp h.symm
    simp only [entriesFind, hpq, if_false, if_neg hqp]
    rw [entriesFind_erase, if_neg hqp]

theorem fsLookup_try_remove (fs : FS) (p q : FsPath) :
    fsLookup (try_remove fs p) q =
      if q = p then Option.none else fsLookup fs q :=
  fsLookup_fsRemove fs p q

theorem temp_out_not_out (k : String) (h : strStarts k "TEMP_OUT_" = true) :
    strStarts k "OUT_" = false := by
  obtain ⟨l⟩ := k
  have e1 : ("TEMP_OUT_" : String).data = ['T', 'E', 'M', 'P', '_', 'O', 'U', 'T', '_'] := rfl
  have e2 : ("OUT_" : String).data = ['O', 'U', 'T', '_'] := rfl
  unfold strStarts at h ⊢
  rw [e1] at h
  rw [e2]
  cases l with
  | nil => simp [List.isPrefixOf] at h
  | cons c cs =>
    simp only [List.isPrefixOf, Bool.and_eq_true, beq_iff_eq] at h
    rcases h with ⟨hc, _⟩
    simp [List.isPrefixOf, ← hc]

theorem touched_sub (temp : FsPath) (kv : String × SlotValue) (q : FsPath)
    (h : q ∈ touchedPaths temp kv) :
    ∃ p2, kv.2 = SlotValue.path p2 ∧ isOutKey kv.1 = true ∧
      (q = temp ++ [basename p2] ∨
       (strStarts kv.1 "OUT_" = true ∧ q = p2)) := by
  unfold touchedPaths at h
  cases hv : kv.2 with
  | path p =>
    rw [hv] at h
    dsimp only at h
    by_cases hout : strStarts kv.1 "OUT_" = true
    · rw [if_pos hout] at h
      rcases List.mem_cons.mp h with h1 | h1
      · exact ⟨p, rfl, by simp [isOutKey, hout], Or.inl h1⟩
      · exact ⟨p, rfl, by simp [isOutKey, hout],
          Or.inr ⟨hout, List.mem_singleton.mp h1⟩⟩
    · rw [if_neg hout] at h
      by_cases hto : strStarts kv.1 "TEMP_OUT_" = true
      · rw [if_pos hto] at h
        exact ⟨p, rfl, by simp [isOutKey, hto], Or.inl (List.mem_singleton.mp h)⟩
      · rw [if_neg hto] at h
        cases h
  | pipe => rw [hv] at h; cases h
  | cmd => rw [hv] at h; cases h
  | callable => rw [hv] at h; cases h
  | none => rw [hv] at h; cases h

theorem path_eq_of_dropLast_getLast {q dir : FsPath} {b : String}
    (h1 : q.dropLast = dir) (h2 : q.getLast? = some b) : q = dir ++ [b] := by
  have hne : q ≠ [] := by rintro rfl; simp at h2
  have h3 := List.dropLast_append_getLast hne
  have h4 := List.getLast?_eq_getLast q hne
  rw [h4] at h2
  injection h2 with h5
  rw [← h3, h1, h5]

theorem mem_key_entriesFind (l : List (FsPath × Nat)) (p : FsPath)
    (h : ∃ e ∈ l, e.1 = p) : ∃ c, entriesFind l p = some c := by
  induction l with
  | nil => simp at h
  | cons e rest ih =>
    by_cases he : e.1 = p
    · exact ⟨e.2, by simp [entriesFind, he]⟩
    · obtain ⟨e2, he2, hk⟩ := h
      rcases List.mem_cons.mp he2 with rfl | hmem
      · exact absurd hk he
      · obtain ⟨c, hc⟩ := ih ⟨e2, hmem, hk⟩
        exact ⟨c, by simp [entriesFind, he, hc]⟩

theorem listdir_mem_lookup (fs : FS) (dir : FsPath) (b : String)
    (h : b ∈ listdir fs dir) : ∃ c, fsLookup fs (dir ++ [b]) = some c := by
  rw [listdir, List.mem_filterMap] at h
  obtain ⟨e, he, hfe⟩ := h
  by_cases hc : e.1.dropLast = dir
  · rw [if_pos hc] at hfe
    have hpath : e.1 = dir ++ [b] := path_eq_of_dropLast_getLast hc hfe
    exact mem_key_entriesFind fs.files _ ⟨e, he, hpath⟩
  · rw [if_neg hc] at hfe
    cases hfe

theorem abspath_absolute (cwd p : FsPath) (h : p.head? = some "") :
    abspath cwd p = p := by
  simp [abspath, h]

theorem mem_outputBasenames {files : SlotMap} {k : String} {p : FsPath}
    (hmem : (k, SlotValue.path p) ∈ files) (hout : isOutKey k = true) :
    basename p ∈ outputBasenames files := by
  rw [outputBasenames, List.mem_filterMap]
  exact ⟨(k, SlotValue.path p), hmem, by simp [hout]⟩

theorem mem_of_mem_sides {files l1 l2 : SlotMap} {x kv : String × SlotValue}
    (hsplit : files = l1 ++ x :: l2) (h : kv ∈ l1 ++ l2) : kv ∈ files := by
  rw [hsplit]
  rcases List.mem_append.mp h with h1 | h1
  · exact List.mem_append_left _ h1
  · exact List.mem_append_right _ (List.mem_cons_of_mem _ h1)

theorem not_in_touched_src (temp : FsPath) (files : SlotMap)
    (kv : String × SlotValue) (hkv : kv ∈ files)
    (hdst : ∀ kv2 ∈ files, outDestOutsideTemp temp kv2 = true) (b : String)
    (hb : ∀ p2, kv.2 = SlotValue.path p2 → isOutKey kv.1 = true →
       basename p2 ≠ b) :
    (temp ++ [b]) ∉ touchedPaths temp kv := by
  intro hq
  obtain ⟨p2, hv2, hok2, hcase⟩ := touched_sub temp kv _ hq
  rcases hcase with hq1 | ⟨ho2, hq2⟩
  · have hbb : b = basename p2 := by
      have := List.append_cancel_left hq1
      simpa using this
    exact hb p2 hv2 hok2 hbb.symm
  · have h1 := hdst kv hkv
    obtain ⟨k2, v2⟩ := kv
    dsimp only at hv2 ho2 h1
    subst hv2
    simp only [outDestOutsideTemp, ho2, Bool.not_true, Bool.false_or,
      decide_eq_true_eq] at h1
    exact h1 (by rw [← hq2, List.dropLast_concat])
theorem exceptBind_ok {α β : Type} {x : Except String α} {f : α → Except String β}
    {b : β} (h : x >>= f = .ok b) : ∃ a, x = .ok a ∧ f a = .ok b := by
  cases x with
  | error e => simp [Bind.bind, Except.bind] at h
  | ok a => exact ⟨a, rfl, by simpa [Bind.bind, Except.bind] using h⟩

theorem commit_step_ok_cases {root : FsPath} {acc acc2 : FS}
    {kv : String × SlotValue} (h : commit_step root acc kv = .ok acc2) :
    (∃ k p c, kv = (k, SlotValue.path p) ∧ strStarts k "OUT_" = true ∧
       fsLookup acc (root ++ [basename p]) = some c ∧
       acc2 = fsSet (fsRemove acc (root ++ [basename p])) p c) ∨
    (∃ k p, kv = (k, SlotValue.path p) ∧ strStarts k "OUT_" = false ∧
       strStarts k "TEMP_OUT_" = true ∧
       acc2 = try_remove acc (root ++ [basename p])) ∨
    (acc2 = acc ∧ ∀ p2, kv.2 = SlotValue.path p2 →
       strStarts kv.1 "OUT_" = false ∧ strStarts kv.1 "TEMP_OUT_" = false) := by
  obtain ⟨k, v⟩ := kv
  cases v with
  | path p =>
    unfold commit_step at h
    dsimp only at h
    by_cases hout : strStarts k "OUT_" = true
    · rw [if_pos hout] at h
      unfold move_file at h
      cases hl : fsLookup acc (root ++ [basename p]) with
      | none => rw [hl] at h; simp at h
      | some c =>
        rw [hl] at h
        simp only [Except.ok.injEq] at h
        exact Or.inl ⟨k, p, c, rfl, hout, hl, h.symm⟩
    · rw [if_neg hout] at h
      by_cases hto : strStarts k "TEMP_OUT_" = true
      · rw [if_pos hto] at h
        simp only [Except.ok.injEq] at h
        exact Or.inr (Or.inl ⟨k, p, rfl, by simpa using hout, hto, h.symm⟩)
      · rw [if_neg hto] at h
        simp only [Except.ok.injEq] at h
        refine Or.inr (Or.inr ⟨h.symm, ?_⟩)
        intro p2 hp2
        exact ⟨by simpa using hout, by simpa using hto⟩
  | pipe =>
    simp only [commit_step, Except.ok.injEq] at h
    exact Or.inr (Or.inr ⟨h.symm, by intro p2 hp2; cases hp2⟩)
  | cmd =>
    simp only [commit_step, Except.ok.injEq] at h
    exact Or.inr (Or.inr ⟨h.symm, by intro p2 hp2; cases hp2⟩)
  | callable =>
    simp only [commit_step, Except.ok.injEq] at h
    exact Or.inr (Or.inr ⟨h.symm, by intro p2 hp2; cases hp2⟩)
  | none =>
    simp only [commit_step, Except.ok.injEq] at h
    exact Or.inr (Or.inr ⟨h.symm, by intro p2 hp2; cases hp2⟩)

theorem commit_fold_ok_split {root : FsPath} {l1 l2 : SlotMap}
    {kv : String × SlotValue} {fs out : FS}
    (h : (l1 ++ kv :: l2).foldlM (commit_step root) fs = .ok out) :
    ∃ fsa fsb, l1.foldlM (commit_step root) fs = .ok fsa ∧
      commit_step root fsa kv = .ok fsb ∧
      l2.foldlM (commit_step root) fsb = .ok out := by
  induction l1 generalizing fs with
  | nil =>
    rw [List.nil_append, List.foldlM_cons] at h
    obtain ⟨fsb, hsb, hrest⟩ := exceptBind_ok h
    exact ⟨fs, fsb, rfl, hsb, hrest⟩
  | cons e rest ih =>
    rw [List.cons_append, List.foldlM_cons] at h
    obtain ⟨fsm, hsm, hrest⟩ := exceptBind_ok h
    obtain ⟨fsa, fsb, h1, h2, h3⟩ := ih hrest
    refine ⟨fsa, fsb, ?_, h2, h3⟩
    rw [List.foldlM_cons, hsm]
    simpa [Bind.bind, Except.bind] using h1

theorem commit_step_ok_frame {root : FsPath} {acc acc2 : FS}
    {kv : String × SlotValue} {q : FsPath}
    (h : commit_step root acc kv = .ok acc2) (hq : q ∉ touchedPaths root kv) :
    fsLookup acc2 q = fsLookup acc q := by
  rcases commit_step_ok_cases h with
    ⟨k, p, c, hkv, hout, hl, hacc⟩ | ⟨k, p, hkv, hout, hto, hacc⟩ | ⟨hacc, _⟩
  · subst hkv hacc
    unfold touchedPaths at hq
    dsimp only at hq
    rw [if_pos hout] at hq
    simp only [List.mem_cons, List.mem_singleton, not_or] at hq
    rw [fsLookup_fsSet, if_neg hq.2.1, fsLookup_fsRemove, if_neg hq.1]
  · subst hkv hacc
    unfold touchedPaths at hq
    dsimp only at hq
    rw [if_neg (by simp [hout]), if_pos hto] at hq
    rw [fsLookup_try_remove, if_neg (by simpa using hq)]
  · rw [hacc]

theorem commit_fold_ok_frame {root : FsPath} {l : SlotMap} {acc out : FS}
    {q : FsPath} (h : l.foldlM (commit_step root) acc = .ok out)
    (hq : ∀ kv ∈ l, q ∉ touchedPaths root kv) :
    fsLookup out q = fsLookup acc q := by
  induction l generalizing acc with
  | nil =>
    rw [List.foldlM_nil] at h
    simp only [pure, Except.pure, Except.ok.injEq] at h
    rw [← h]
  | cons kv rest ih =>
    rw [List.foldlM_cons] at h
    obtain ⟨fsm, hsm, hrest⟩ := exceptBind_ok h
    rw [ih hrest (fun x hx => hq x (List.mem_cons_of_mem kv hx)),
      commit_step_ok_frame hsm (hq kv (List.mem_cons_self kv rest))]

theorem outDest_elim {root : FsPath} {k : String} {p : FsPath}
    (h : outDestOutsideTemp root (k, SlotValue.path p) = true)
    (hout : strStarts k "OUT_" = true) : p.dropLast ≠ root := by
  simp only [outDestOutsideTemp, hout, Bool.not_true, Bool.false_or,
    decide_eq_true_eq] at h
  exact h

theorem commit_fold_gone {root : FsPath} {l : SlotMap} {acc out : FS}
    {src : FsPath} (h : l.foldlM (commit_step root) acc = .ok out)
    (hsrc : src.dropLast = root)
    (hdst : ∀ kv ∈ l, outDestOutsideTemp root kv = true)
    (hnone : fsLookup acc src = Option.none) :
    fsLookup out src = Option.none := by
  induction l generalizing acc with
  | nil =>
    rw [List.foldlM_nil] at h
    simp only [pure, Except.pure, Except.ok.injEq] at h
    rw [← h]
    exact hnone
  | cons kv rest ih =>
    rw [List.foldlM_cons] at h
    obtain ⟨fsm, hsm, hrest⟩ := exceptBind_ok h
    refine ih hrest (fun x hx => hdst x (List.mem_cons_of_mem kv hx)) ?_
    rcases commit_step_ok_cases hsm with
      ⟨k, p, c, hkv, hout, hl, hacc⟩ | ⟨k, p, hkv, hout, hto, hacc⟩ | ⟨hacc, _⟩
    · subst hacc
      by_cases hss : root ++ [basename p] = src
      · rw [hss, hnone] at hl
        cases hl
      · have hpo : p.dropLast ≠ root := by
          have h1 := hdst kv (List.mem_cons_self kv rest)
          rw [hkv] at h1
          exact outDest_elim h1 hout
        have hps : ¬ (src = p) := fun e => hpo (by rw [← e, hsrc])
        rw [fsLookup_fsSet, if_neg hps, fsLookup_fsRemove,
          if_neg (fun e => hss e.symm)]
        exact hnone
    · subst hacc
      rw [fsLookup_try_remove]
      split
      · rfl
      · exact hnone
    · rw [hacc]
      exact hnone

theorem commit_fold_pair {root : FsPath} {l : SlotMap} {acc out : FS}
    {p : FsPath} {c : Nat} (h : l.foldlM (commit_step root) acc = .ok out)
    (hpo : p.dropLast ≠ root)
    (hdst : ∀ kv ∈ l, outDestOutsideTemp root kv = true)
    (hpc : fsLookup acc p = some c)
    (hnone : fsLookup acc (root ++ [basename p]) = Option.none) :
    fsLookup out p = some c := by
  induction l generalizing acc with
  | nil =>
    rw [List.foldlM_nil] at h
    simp only [pure, Except.pure, Except.ok.injEq] at h
    rw [← h]
    exact hpc
  | cons kv rest ih =>
    rw [List.foldlM_cons] at h
    obtain ⟨fsm, hsm, hrest⟩ := exceptBind_ok h
    have hdr : ∀ x ∈ rest, outDestOutsideTemp root x = true :=
      fun x hx => hdst x (List.mem_cons_of_mem kv hx)
    rcases commit_step_ok_cases hsm with
      ⟨k, p2, c2, hkv, hout, hl, hacc⟩ | ⟨k, p2, hkv, hout, hto, hacc⟩ | ⟨hacc, _⟩
    · subst hacc
      have hp2o : p2.dropLast ≠ root := by
        have h1 := hdst kv (List.mem_cons_self kv rest)
        rw [hkv] at h1
        exact outDest_elim h1 hout
      have hsrc2b : ¬ (root ++ [basename p2] = root ++ [basename p]) := by
        intro e
        rw [e, hnone] at hl
        cases hl
      have hp2p : ¬ (p = p2) := by
        intro e
        exact hsrc2b (by rw [e])
      have hsrc2p : ¬ (p = root ++ [basename p2]) :=
        fun e => hpo (by rw [e, List.dropLast_concat])
      have hpsrc : ¬ (root ++ [basename p] = p2) :=
        fun e => hp2o (by rw [← e, List.dropLast_concat])
      refine ih hrest hdr ?_ ?_
      · rw [fsLookup_fsSet, if_neg hp2p, fsLookup_fsRemove, if_neg hsrc2p]
        exact hpc
      · rw [fsLookup_fsSet, if_neg hpsrc, fsLookup_fsRemove,
          if_neg (fun e => hsrc2b e.symm)]
        exact hnone
    · subst hacc
      have hsrc2p : ¬ (p = root ++ [basename p2]) :=
        fun e => hpo (by rw [e, List.dropLast_concat])
      refine ih hrest hdr ?_ ?_
      · rw [fsLookup_try_remove, if_neg hsrc2p]
        exact hpc
      · rw [fsLookup_try_remove]
        split
        · rfl
        · exact hnone
    · rw [hacc] at hrest
      exact ih hrest hdr hpc hnone

theorem commit_fold_back {root : FsPath} {l : SlotMap} {acc out : FS}
    {src : FsPath} {c : Nat} (h : l.foldlM (commit_step root) acc = .ok out)
    (hsrc : src.dropLast = root)
    (hdst : ∀ kv ∈ l, outDestOutsideTemp root kv = true)
    (hout : fsLookup out src = some c) :
    fsLookup acc src = some c := by
  induction l generalizing acc with
  | nil =>
    rw [List.foldlM_nil] at h
    simp only [pure, Except.pure, Except.ok.injEq] at h
    rw [h]
    exact hout
  | cons kv rest ih =>
    rw [List.foldlM_cons] at h
    obtain ⟨fsm, hsm, hrest⟩ := exceptBind_ok h
    have hdr : ∀ x ∈ rest, outDestOutsideTemp root x = true :=
      fun x hx => hdst x (List.mem_cons_of_mem kv hx)
    rcases commit_step_ok_cases hsm with
      ⟨k, p2, c2, hkv, hout2, hl, hacc⟩ | ⟨k, p2, hkv, hout2, hto, hacc⟩ | ⟨hacc, _⟩
    · have hp2o : p2.dropLast ≠ root := by
        have h1 := hdst kv (List.mem_cons_self kv rest)
        rw [hkv] at h1
        exact outDest_elim h1 hout2
      have hsp2 : ¬ (src = p2) := fun e => hp2o (by rw [← e, hsrc])
      by_cases hs2 : src = root ++ [basename p2]
      · have hm : fsLookup fsm src = Option.none := by
          rw [hacc, fsLookup_fsSet, if_neg hsp2, fsLookup_fsRemove, if_pos hs2]
        rw [commit_fold_gone hrest hsrc hdr hm] at hout
        cases hout
      · have heq : fsLookup fsm src = fsLookup acc src := by
          rw [hacc, fsLookup_fsSet, if_neg hsp2, fsLookup_fsRemove, if_neg hs2]
        rw [← heq]
        exact ih hrest hdr
    · by_cases hs2 : src = root ++ [basename p2]
      · have hm : fsLookup fsm src = Option.none := by
          rw [hacc, fsLookup_try_remove, if_pos hs2]
        rw [commit_fold_gone hrest hsrc hdr hm] at hout
        cases hout
      · have heq : fsLookup fsm src = fsLookup acc src := by
          rw [hacc, fsLookup_try_remove, if_neg hs2]
        rw [← heq]
        exact ih hrest hdr
    · rw [hacc] at hrest
      exact ih hrest hdr

theorem commit_ok_elim {cwd : FsPath} {s : CmdState} {fs : FS} {temp : FsPath}
    {s2 : CmdState} {fs2 : FS} (h : commit cwd s fs temp = .ok (s2, fs2)) :
    commitMoves cwd temp s.files fs = .ok fs2 := by
  cases hr : ready s with
  | false => simp [commit, hr] at h
  | true =>
    cases hh : s.handles with
    | cons a t => simp [commit, hr, hh] at h
    | nil =>
      cases hst : s.temp with
      | none => simp [commit, hr, hh, hst] at h
      | some t0 =>
        cases hsf : samefile fs t0 temp with
        | false => simp [commit, hr, hh, hst, hsf] at h
        | true =>
          cases hm : missing_files fs s.files temp with
          | cons b bs => simp [commit, hr, hh, hst, hsf, hm] at h
          | nil =>
            cases hcm : commitMoves cwd temp s.files fs with
            | error e => simp [commit, hr, hh, hst, hsf, hm, hcm] at h
            | ok fs2x =>
              simp [commit, hr, hh, hst, hsf, hm, hcm] at h
              rw [h.2]

/-- Counterexample to claim C2: an accepted descriptor (caller slot
`OUT_X = "/t/pipe_cat_7.stdout"`, a destination inside the temp root that
collides with the auto-filled stdout pipe filename) commits successfully,
yet afterwards the declared output path holds nothing: the move onto itself
is a no-op and the auto-filled `TEMP_OUT_STDOUT` removal then deletes the
promoted file. -/
theorem c2_counterexample :
    process_arguments 7 ["cat"]
        [("OUT_X", SlotValue.path ["", "t", "pipe_cat_7.stdout"])] =
      .ok c2badfiles ∧
    ("OUT_X", SlotValue.path ["", "t", "pipe_cat_7.stdout"]) ∈ c2bad.files ∧
    fsLookup c2badfs
        (["", "t"] ++ [basename ["", "t", "pipe_cat_7.stdout"]]) = some 1 ∧
    commit ["", "c"] c2bad c2badfs ["", "t"] =
      .ok ({ c2bad with proc := Option.none, temp := Option.none }, c2badfs2) ∧
    fsLookup c2badfs2 ["", "t", "pipe_cat_7.stdout"] = Option.none :=
  ⟨rfl, by simp [c2bad, c2badfiles], rfl, rfl, rfl⟩

/-- Claim C2 as amended: on a successful `commit(temp)` of a descriptor all
of whose string-valued `OUT_` destinations lie outside the (absolute) temp
root, every such slot `p` has `temp/basename(p)` (which existed) moved to
`p` and removed from the temp root; every string-valued `TEMP_OUT_` slot
has `temp/basename(value)` removed if present; and no other file of the
temp root is created, removed or modified.  (A destination inside the temp
root necessarily coincides with its own temp source, and a `TEMP_OUT_` slot
sharing its basename — such as an auto-filled pipe slot — then deletes the
promoted output, as the counterexample shows.) -/
theorem c2_commit_effects :
    ∀ (cwd : FsPath) (s : CmdState) (fs : FS) (temp : FsPath)
      (s2 : CmdState) (fs2 : FS),
      commit cwd s fs temp = .ok (s2, fs2) →
      temp.head? = some "" →
      (∀ kv ∈ s.files, outDestOutsideTemp temp kv = true) →
      (∀ k p, (k, SlotValue.path p) ∈ s.files → strStarts k "OUT_" = true →
         fsLookup fs2 p = fsLookup fs (temp ++ [basename p]) ∧
         fsLookup fs (temp ++ [basename p]) ≠ Option.none ∧
         fsLookup fs2 (temp ++ [basename p]) = Option.none) ∧
      (∀ k p, (k, SlotValue.path p) ∈ s.files → strStarts k "TEMP_OUT_" = true →
         fsLookup fs2 (temp ++ [basename p]) = Option.none) ∧
      (∀ q b, q.dropLast = temp → q.getLast? = some b →
         b ∉ outputBasenames s.files → fsLookup fs2 q = fsLookup fs q) := by
  intro cwd s fs temp s2 fs2 h habs hdst
  have hcm := commit_ok_elim h
  rw [commitMoves, abspath_absolute cwd temp habs] at hcm
  refine ⟨?_, ?_, ?_⟩
  · intro k p hmem hout
    have hpo : p.dropLast ≠ temp := by
      have h1 := hdst (k, SlotValue.path p) hmem
      exact outDest_elim h1 hout
    obtain ⟨l1, l2, hsplit⟩ := List.append_of_mem hmem
    rw [hsplit] at hcm
    obtain ⟨fsa, fsb, h1, h2, h3⟩ := commit_fold_ok_split hcm
    have hstep : ∃ c, fsLookup fsa (temp ++ [basename p]) = some c ∧
        fsb = fsSet (fsRemove fsa (temp ++ [basename p])) p c := by
      rcases commit_step_ok_cases h2 with
        ⟨k2, p2, c, hkv, hout2, hl, hacc⟩ | ⟨k2, p2, hkv, hout2, hto, hacc⟩ |
        ⟨hacc, hnp⟩
      · simp only [Prod.mk.injEq, SlotValue.path.injEq] at hkv
        obtain ⟨rfl, rfl⟩ := hkv
        exact ⟨c, hl, hacc⟩
      · simp only [Prod.mk.injEq, SlotValue.path.injEq] at hkv
        obtain ⟨rfl, rfl⟩ := hkv
        rw [hout] at hout2
        cases hout2
      · have := (hnp p rfl).1
        rw [hout] at this
        cases this
    obtain ⟨c, hl, hfsb⟩ := hstep
    have hdl : ∀ x ∈ l1, outDestOutsideTemp temp x = true :=
      fun x hx => hdst x (by rw [hsplit]; exact List.mem_append_left _ hx)
    have hdr : ∀ x ∈ l2, outDestOutsideTemp temp x = true :=
      fun x hx => hdst x
        (by rw [hsplit]; exact List.mem_append_right _ (List.mem_cons_of_mem _ hx))
    have hback : fsLookup fs (temp ++ [basename p]) = some c :=
      commit_fold_back h1 (List.dropLast_concat) hdl hl
    have hsp : ¬ ((temp ++ [basename p]) = p) :=
      fun e => hpo (by rw [← e, List.dropLast_concat])
    have hb_p : fsLookup fsb p = some c := by
      rw [hfsb, fsLookup_fsSet, if_pos rfl]
    have hb_src : fsLookup fsb (temp ++ [basename p]) = Option.none := by
      rw [hfsb, fsLookup_fsSet, if_neg hsp, fsLookup_fsRemove, if_pos rfl]
    have hfin_p : fsLookup fs2 p = some c :=
      commit_fold_pair h3 hpo hdr hb_p hb_src
    have hfin_src : fsLookup fs2 (temp ++ [basename p]) = Option.none :=
      commit_fold_gone h3 (List.dropLast_concat) hdr hb_src
    refine ⟨by rw [hfin_p, hback], by rw [hback]; simp, hfin_src⟩
  · intro k p hmem hto
    have hout_false : strStarts k "OUT_" = false := temp_out_not_out k hto
    obtain ⟨l1, l2, hsplit⟩ := List.append_of_mem hmem
    rw [hsplit] at hcm
    obtain ⟨fsa, fsb, h1, h2, h3⟩ := commit_fold_ok_split hcm
    have hdr : ∀ x ∈ l2, outDestOutsideTemp temp x = true :=
      fun x hx => hdst x
        (by rw [hsplit]; exact List.mem_append_right _ (List.mem_cons_of_mem _ hx))
    have hfsb : fsb = try_remove fsa (temp ++ [basename p]) := by
      rcases commit_step_ok_cases h2 with
        ⟨k2, p2, c, hkv, hout2, hl, hacc⟩ | ⟨k2, p2, hkv, hout2, hto2, hacc⟩ |
        ⟨hacc, hnp⟩
      · simp only [Prod.mk.injEq, SlotValue.path.injEq] at hkv
        obtain ⟨rfl, rfl⟩ := hkv
        rw [hout_false] at hout2
        cases hout2
      · simp only [Prod.mk.injEq, SlotValue.path.injEq] at hkv
        obtain ⟨rfl, rfl⟩ := hkv
        exact hacc
      · have := (hnp p rfl).2
        rw [hto] at this
        cases this
    have hb_src : fsLookup fsb (temp ++ [basename p]) = Option.none := by
      rw [hfsb, fsLookup_try_remove, if_pos rfl]
    exact commit_fold_gone h3 (List.dropLast_concat) hdr hb_src
  · intro q b hdl hgl hbn
    have hq : q = temp ++ [b] := path_eq_of_dropLast_getLast hdl hgl
    refine commit_fold_ok_frame hcm ?_
    intro kv hkv
    rw [hq]
    refine not_in_touched_src temp s.files kv hkv hdst b ?_
    intro p2 hv2 hok2 heq
    apply hbn
    rw [← heq]
    obtain ⟨k2, v2⟩ := kv
    dsimp only at hv2 hok2
    subst hv2
    exact mem_outputBasenames hkv hok2

/-- Witness for C2 (amended) at a concrete descriptor and filesystem: one
declared output `/d/x` outside the temp root, plus pipe files and an
unrelated file inside it. -/
theorem c2_commit_effects_witness :
    commit ["", "c"] c2state c2fs ["", "t"] =
      .ok ({ c2state with proc := Option.none, temp := Option.none }, c2fs2) ∧
    (["", "t"] : FsPath).head? = some "" ∧
    (∀ kv ∈ c2state.files, outDestOutsideTemp ["", "t"] kv = true) ∧
    ((∀ k p, (k, SlotValue.path p) ∈ c2state.files → strStarts k "OUT_" = true →
        fsLookup c2fs2 p = fsLookup c2fs (["", "t"] ++ [basename p]) ∧
        fsLookup c2fs (["", "t"] ++ [basename p]) ≠ Option.none ∧
        fsLookup c2fs2 (["", "t"] ++ [basename p]) = Option.none) ∧
     (∀ k p, (k, SlotValue.path p) ∈ c2state.files →
        strStarts k "TEMP_OUT_" = true →
        fsLookup c2fs2 (["", "t"] ++ [basename p]) = Option.none) ∧
     (∀ q b, q.dropLast = ["", "t"] → q.getLast? = some b →
        b ∉ outputBasenames c2state.files →
        fsLookup c2fs2 q = fsLookup c2fs q)) :=
  ⟨rfl, rfl, by decide,
   c2_commit_effects ["", "c"] c2state c2fs ["", "t"] _ c2fs2 rfl rfl (by decide)⟩

/-- Claim C5 as amended: among the caller-supplied slots of a descriptor,
duplicate output basenames are rejected — a slot map that passes the pipe
and per-slot validation and contains two distinct string-valued output
slots sharing a basename makes construction fail with an error naming the
duplicated filename and the offending keys — and conversely an accepted
descriptor has no such duplicate among its caller-supplied output slots.
The auto-filled `TEMP_OUT_STDOUT`/`TEMP_OUT_STDERR` slots are excluded from
this check, so an accepted descriptor may have an auto-filled slot sharing
a basename with a caller-supplied one. -/
theorem c5_no_duplicate_output_basenames :
    ∀ (proc_id : Nat) (command : List String) (kwargs : SlotMap),
      (∀ files, process_arguments proc_id command kwargs = .ok files →
        ∀ k1 k2 p1 p2,
          (k1, SlotValue.path p1) ∈ kwargs → (k2, SlotValue.path p2) ∈ kwargs →
          isOutKey k1 = true → isOutKey k2 = true → k1 ≠ k2 →
          basename p1 ≠ basename p2) ∧
      (∀ files0 k1 k2 p1 p2,
        validate_pipes kwargs = .ok () →
        collect_files kwargs = .ok files0 →
        (k1, SlotValue.path p1) ∈ kwargs → (k2, SlotValue.path p2) ∈ kwargs →
        isOutKey k1 = true → isOutKey k2 = true → k1 ≠ k2 →
        basename p1 = basename p2 →
        ∃ bn keys, findDuplicateOutput kwargs = some (bn, keys) ∧
          process_arguments proc_id command kwargs =
            .error ("Same output filename (" ++ bn ++
                    ") is specified for multiple keys: " ++
                    String.intercalate ", " keys) ∧
          1 < keys.length ∧
          (∀ k ∈ keys, ∃ p, (k, SlotValue.path p) ∈ kwargs ∧
            isOutKey k = true ∧ basename p = bn)) := by
  intro proc_id command kwargs
  constructor
  · intro files h k1 k2 p1 p2 hm1 hm2 ho1 ho2 hne heq
    have hdup : findDuplicateOutput kwargs = Option.none := by
      unfold process_arguments at h
      cases hv : validate_pipes kwargs with
      | error e => rw [hv] at h; simp at h
      | ok u =>
        rw [hv] at h
        cases hc : collect_files kwargs with
        | error e => rw [hc] at h; simp at h
        | ok files0 =>
          rw [hc] at h
          cases hd : findDuplicateOutput kwargs with
          | some g => rw [hd] at h; simp at h
          | none => rfl
    have hp1 : (basename p1, k1) ∈ outPairs kwargs := by
      rw [outPairs, List.mem_filterMap]
      exact ⟨(k1, SlotValue.path p1), hm1, by simp [ho1]⟩
    have hp2 : (basename p1, k2) ∈ outPairs kwargs := by
      rw [outPairs, List.mem_filterMap]
      exact ⟨(k2, SlotValue.path p2), hm2, by simp [ho2, heq]⟩
    have hgrp : (basename p1, (outPairs kwargs).filterMap
        (fun q => if q.1 = basename p1 then some q.2 else Option.none)) ∈
        dupOutputGroups kwargs := by
      rw [dupOutputGroups]
      refine List.mem_map.mpr ⟨basename p1, ?_, rfl⟩
      rw [List.mem_dedup]
      exact List.mem_map.mpr ⟨(basename p1, k1), hp1, rfl⟩
    have hk1 : k1 ∈ (outPairs kwargs).filterMap
        (fun q => if q.1 = basename p1 then some q.2 else Option.none) := by
      rw [List.mem_filterMap]
      exact ⟨(basename p1, k1), hp1, by simp⟩
    have hk2 : k2 ∈ (outPairs kwargs).filterMap
        (fun q => if q.1 = basename p1 then some q.2 else Option.none) := by
      rw [List.mem_filterMap]
      exact ⟨(basename p1, k2), hp2, by simp⟩
    have hlen := one_lt_length_of_two_mem hk1 hk2 hne
    have hnone := List.find?_eq_none.mp hdup _ hgrp
    simp at hnone
    exact absurd hlen (by simpa using hnone)
  · intro files0 k1 k2 p1 p2 hv hc hm1 hm2 ho1 ho2 hne heq
    have hp1 : (basename p1, k1) ∈ outPairs kwargs := by
      rw [outPairs, List.mem_filterMap]
      exact ⟨(k1, SlotValue.path p1), hm1, by simp [ho1]⟩
    have hp2 : (basename p1, k2) ∈ outPairs kwargs := by
      rw [outPairs, List.mem_filterMap]
      exact ⟨(k2, SlotValue.path p2), hm2, by simp [ho2, heq]⟩
    have hgrp : (basename p1, (outPairs kwargs).filterMap
        (fun q => if q.1 = basename p1 then some q.2 else Option.none)) ∈
        dupOutputGroups kwargs := by
      rw [dupOutputGroups]
      refine List.mem_map.mpr ⟨basename p1, ?_, rfl⟩
      rw [List.mem_dedup]
      exact List.mem_map.mpr ⟨(basename p1, k1), hp1, rfl⟩
    have hk1 : k1 ∈ (outPairs kwargs).filterMap
        (fun q => if q.1 = basename p1 then some q.2 else Option.none) := by
      rw [List.mem_filterMap]
      exact ⟨(basename p1, k1), hp1, by simp⟩
    have hk2 : k2 ∈ (outPairs kwargs).filterMap
        (fun q => if q.1 = basename p1 then some q.2 else Option.none) := by
      rw [List.mem_filterMap]
      exact ⟨(basename p1, k2), hp2, by simp⟩
    have hlen := one_lt_length_of_two_mem hk1 hk2 hne
    have hsome : (findDuplicateOutput kwargs).isSome := by
      rw [findDuplicateOutput, List.find?_isSome]
      exact ⟨_, hgrp, by simpa using hlen⟩
    obtain ⟨g, hg⟩ := Option.isSome_iff_exists.mp hsome
    have hgl : 1 < g.2.length := by
      rw [findDuplicateOutput] at hg
      simpa using List.find?_some hg
    have hgmem : g ∈ dupOutputGroups kwargs := by
      rw [findDuplicateOutput] at hg
      exact List.mem_of_find?_eq_some hg
    rw [dupOutputGroups] at hgmem
    obtain ⟨bn, hbn_mem, hgeq⟩ := List.mem_map.mp hgmem
    refine ⟨g.1, g.2, by simpa using hg, ?_, hgl, ?_⟩
    · unfold process_arguments
      rw [hv, hc, hg]
    · intro k hk
      rw [← hgeq] at hk
      simp only at hk
      obtain ⟨q, hqmem, hqeq⟩ := List.mem_filterMap.mp hk
      have hq1 : q.1 = bn ∧ q.2 = k := by
        by_cases hb : q.1 = bn
        · rw [if_pos hb] at hqeq
          exact ⟨hb, by injection hqeq⟩
        · rw [if_neg hb] at hqeq
          cases hqeq
      obtain ⟨kv, hkvmem, hf⟩ := List.mem_filterMap.mp hqmem
      obtain ⟨kk, vv⟩ := kv
      by_cases hok : isOutKey kk = true
      · cases vv with
        | path p =>
          simp only [outPairs, hok, if_pos] at hf
          injection hf with hf2
          have hq : q = (basename p, kk) := hf2.symm
          have hkk : kk = k := by rw [hq] at hq1; exact hq1.2
          subst hkk
          refine ⟨p, hkvmem, hok, ?_⟩
          rw [hq] at hq1
          have hbn1 : basename p = bn := hq1.1
          have hgbn : g.1 = bn := by rw [← hgeq]
          rw [hgbn, hbn1]
        | pipe => simp [hok] at hf
        | cmd => simp [hok] at hf
        | callable => simp [hok] at hf
        | none => simp [hok] at hf
      · simp [hok] at hf

/-- Witness for C5 (amended): two caller-supplied output slots of an
accepted descriptor have distinct basenames, and a slot map with a shared
basename is rejected with the error naming `x` and both keys. -/
theorem c5_no_duplicate_output_basenames_witness :
    (process_arguments 9 ["cat"]
        [("OUT_A", SlotValue.path ["x"]), ("OUT_B", SlotValue.path ["y"])]).isOk =
      true ∧
    basename ["x"] ≠ basename ["y"] ∧
    (∃ bn keys, findDuplicateOutput
        [("OUT_A", SlotValue.path ["x"]), ("TEMP_OUT_B", SlotValue.path ["x"])] =
          some (bn, keys) ∧
      process_arguments 9 ["cat"]
          [("OUT_A", SlotValue.path ["x"]), ("TEMP_OUT_B", SlotValue.path ["x"])] =
        .error ("Same output filename (" ++ bn ++
                ") is specified for multiple keys: " ++
                String.intercalate ", " keys) ∧
      1 < keys.length ∧
      (∀ k ∈ keys, ∃ p, (k, SlotValue.path p) ∈
          [("OUT_A", SlotValue.path ["x"]), ("TEMP_OUT_B", SlotValue.path ["x"])] ∧
        isOutKey k = true ∧ basename p = bn)) :=
  ⟨rfl,
   (c5_no_duplicate_output_basenames 9 ["cat"]
       [("OUT_A", SlotValue.path ["x"]), ("OUT_B", SlotValue.path ["y"])]).1 _ rfl
     "OUT_A" "OUT_B" ["x"] ["y"] (by simp) (by simp) (by decide) (by decide)
     (by decide),
   (c5_no_duplicate_output_basenames 9 ["cat"]
       [("OUT_A", SlotValue.path ["x"]), ("TEMP_OUT_B", SlotValue.path ["x"])]).2
     [("OUT_A", SlotValue.path ["x"]), ("TEMP_OUT_B", SlotValue.path ["x"])]
     "OUT_A" "TEMP_OUT_B" ["x"] ["x"] rfl rfl (by simp) (by simp) (by decide)
     (by decide) (by decide) rfl⟩

/-- Claim C7: for each of the two output streams separately, whenever a
descriptor is accepted and neither the `OUT_` nor the `TEMP_OUT_` form of
that stream was supplied (truthy) by the caller, the resulting slot map
binds `TEMP_OUT_<stream>` to the synthesised filename
`pipe_<basename of argv0>_<descriptor id>.<stream lowercased>` — regardless
of what was supplied for the other stream. -/
theorem c7_autofill_pipe_slots :
    ∀ (proc_id : Nat) (command : List String) (kwargs files : SlotMap),
      process_arguments proc_id command kwargs = .ok files →
      (truthy (lookupSlot kwargs "OUT_STDOUT") = false →
       truthy (lookupSlot kwargs "TEMP_OUT_STDOUT") = false →
       lookupSlot files "TEMP_OUT_STDOUT" =
         some (SlotValue.path ["pipe_" ++ basenameStr (command.headD "") ++ "_" ++
               toString proc_id ++ ".stdout"])) ∧
      (truthy (lookupSlot kwargs "OUT_STDERR") = false →
       truthy (lookupSlot kwargs "TEMP_OUT_STDERR") = false →
       lookupSlot files "TEMP_OUT_STDERR" =
         some (SlotValue.path ["pipe_" ++ basenameStr (command.headD "") ++ "_" ++
               toString proc_id ++ ".stderr"])) := by
  intro proc_id command kwargs files h
  unfold process_arguments at h
  cases hv : validate_pipes kwargs with
  | error e => rw [hv] at h; simp at h
  | ok u =>
    rw [hv] at h
    cases hc : collect_files kwargs with
    | error e => rw [hc] at h; simp at h
    | ok files0 =>
      rw [hc] at h
      cases hd : findDuplicateOutput kwargs with
      | some g => rw [hd] at h; simp at h
      | none =>
        rw [hd] at h
        simp only [Except.ok.injEq] at h
        have e1 : ("OUT_" ++ "STDOUT" : String) = "OUT_STDOUT" := by decide
        have e2 : ("TEMP_OUT_" ++ "STDOUT" : String) = "TEMP_OUT_STDOUT" := by decide
        have e3 : ("OUT_" ++ "STDERR" : String) = "OUT_STDERR" := by decide
        have e4 : ("TEMP_OUT_" ++ "STDERR" : String) = "TEMP_OUT_STDERR" := by decide
        have hout : ∀ x : String, x ++ "." ++ strLower "STDOUT" = x ++ ".stdout" := by
          intro x
          rw [String.append_assoc]
          have : ("." ++ strLower "STDOUT" : String) = ".stdout" := by decide
          rw [this]
        have herr : ∀ x : String, x ++ "." ++ strLower "STDERR" = x ++ ".stderr" := by
          intro x
          rw [String.append_assoc]
          have : ("." ++ strLower "STDERR" : String) = ".stderr" := by decide
          rw [this]
        rw [← h]
        unfold autofill_pipes
        simp only [List.foldl_cons, List.foldl_nil, e1, e2, e3, e4, hout, herr]
        constructor
        · intro h1 h2
          simp only [h1, h2, Bool.or_self, Bool.not_false, if_true]
          by_cases hc2 : (!(truthy (lookupSlot kwargs "OUT_STDERR") ||
              truthy (lookupSlot kwargs "TEMP_OUT_STDERR"))) = true
          · rw [if_pos hc2, lookupSlot_dictSet_ne _ _ _ _ (by decide),
              lookupSlot_dictSet_self]
          · rw [if_neg hc2, lookupSlot_dictSet_self]
        · intro h3 h4
          simp only [h3, h4, Bool.or_self, Bool.not_false, if_true]
          rw [lookupSlot_dictSet_self]

/-- Witness for C7: with no keyword arguments both streams are auto-filled;
with `OUT_STDOUT = PIPE` supplied, the stderr slot is still auto-filled on
its own. -/
theorem c7_autofill_pipe_slots_witness :
    process_arguments 5 ["/bin/cat"] [] =
      .ok [("TEMP_OUT_STDOUT", SlotValue.path ["pipe_cat_5.stdout"]),
           ("TEMP_OUT_STDERR", SlotValue.path ["pipe_cat_5.stderr"])] ∧
    truthy (lookupSlot [] "OUT_STDOUT") = false ∧
    lookupSlot [("TEMP_OUT_STDOUT", SlotValue.path ["pipe_cat_5.stdout"]),
                ("TEMP_OUT_STDERR", SlotValue.path ["pipe_cat_5.stderr"])]
        "TEMP_OUT_STDOUT" =
      some (SlotValue.path ["pipe_" ++ basenameStr (["/bin/cat"].headD "") ++ "_" ++
            toString (5 : Nat) ++ ".stdout"]) ∧
    process_arguments 3 ["cat"] [("OUT_STDOUT", SlotValue.pipe)] =
      .ok [("OUT_STDOUT", SlotValue.pipe),
           ("TEMP_OUT_STDERR", SlotValue.path ["pipe_cat_3.stderr"])] ∧
    lookupSlot [("OUT_STDOUT", SlotValue.pipe),
                ("TEMP_OUT_STDERR", SlotValue.path ["pipe_cat_3.stderr"])]
        "TEMP_OUT_STDERR" =
      some (SlotValue.path ["pipe_" ++ basenameStr (["cat"].headD "") ++ "_" ++
            toString (3 : Nat) ++ ".stderr"]) :=
  ⟨rfl, rfl,
   (c7_autofill_pipe_slots 5 ["/bin/cat"] [] _ rfl).1 rfl rfl,
   rfl,
   (c7_autofill_pipe_slots 3 ["cat"] [("OUT_STDOUT", SlotValue.pipe)] _ rfl).2
     rfl rfl⟩
